import Mathlib

/-!
Shallow embedding of `src/funciones.py`, a pandas feature-preparation and
scoring pipeline for a binary fraud classifier.

A DataFrame is modelled as an ordered list of named columns; a cell is a
rational number, a string, or the missing marker `Val.na` (pandas `NaN`).
Python floats are modelled as rationals; `str(float)` in Python is the
shortest round-tripping representation, so the `astype(str)` /
`pd.to_numeric` round trip is the identity on numeric cells.
-/

/-- A cell of a DataFrame: a number, a string, or the missing marker `NaN`. -/
inductive Val where
  | num (q : ℚ)
  | str (s : String)
  | na
deriving DecidableEq, Repr

/-- A DataFrame: an ordered list of named columns; row `i` of the table is
the `i`-th entry of every column. -/
abbrev Table := List (String × List Val)

/-- The column names of a table, in order (`df.columns`). -/
def names (t : Table) : List String := t.map Prod.fst

/-- `df[c]`: the column named `c` (source tables have unique column names). -/
def getCol : Table → String → List Val
  | [], _ => []
  | p :: ps, c => if p.1 = c then p.2 else getCol ps c

/-- `df[c] = v`: pandas column assignment — replaces the column in place
when it is present, otherwise appends a new column on the right. -/
def setCol (t : Table) (c : String) (v : List Val) : Table :=
  if c ∈ names t then t.map (fun p => if p.1 = c then (c, v) else p)
  else t ++ [(c, v)]

/-- `df.drop(columns=c)`. -/
def dropColumn (t : Table) (c : String) : Table := t.filter (fun p => p.1 != c)

/-- `WF t n`: every column of `t` has exactly `n` rows. -/
def WF (t : Table) (n : ℕ) : Prop := ∀ p ∈ t, (p.2 : List Val).length = n

instance (t : Table) (n : ℕ) : Decidable (WF t n) := by
  unfold WF
  exact List.decidableBAll (fun p => p.2.length = n) t

/-- Insertion into an ascending-sorted list of rationals. -/
def insertLe (x : ℚ) : List ℚ → List ℚ
  | [] => [x]
  | y :: ys => if x ≤ y then x :: y :: ys else y :: insertLe x ys

/-- Ascending insertion sort. -/
def sortQ (xs : List ℚ) : List ℚ := xs.foldr insertLe []

/-- The statistical median as `pandas.Series.median` computes it on the
non-missing values: middle element for odd length, mean of the two middle
elements for even length, undefined (`NaN`) for the empty list. -/
def medianList (xs : List ℚ) : Option ℚ :=
  let s := sortQ xs
  let n := s.length
  if n = 0 then none
  else if n % 2 = 1 then s[n / 2]?
  else
    match s[n / 2 - 1]?, s[n / 2]? with
    | some a, some b => some ((a + b) / 2)
    | _, _ => none

/-- The numeric content of a cell, if any. -/
def numOf : Val → Option ℚ
  | .num q => some q
  | _ => none

/-- `df[col].median(skipna=True)`: median of the non-missing cells. -/
def medianCol (col : List Val) : Option ℚ := medianList (col.filterMap numOf)

/-- Turn an optional median back into a cell (`NaN` when undefined). -/
def valOfOpt : Option ℚ → Val
  | some q => .num q
  | none => .na

/-- `v < q` as numpy evaluates it cell-wise: `NaN < q` is `False`. -/
def valLt (v : Val) (q : ℚ) : Bool :=
  match v with
  | .num x => decide (x < q)
  | _ => false

/-- `v > q` cell-wise: `NaN > q` is `False`. -/
def valGt (v : Val) (q : ℚ) : Bool :=
  match v with
  | .num x => decide (q < x)
  | _ => false

/-- `v >= q` cell-wise: `NaN >= q` is `False`. -/
def valGe (v : Val) (q : ℚ) : Bool :=
  match v with
  | .num x => decide (q ≤ x)
  | _ => false

/-- Value of a string of decimal digits. -/
def digitsToNat (cs : List Char) : ℕ :=
  cs.foldl (fun a c => 10 * a + (c.toNat - 48)) 0

/-- Split a leading sign character off a character list. -/
def splitSign : List Char → Bool × List Char
  | '-' :: cs => (true, cs)
  | '+' :: cs => (false, cs)
  | cs => (false, cs)

/-- Parse an unsigned decimal mantissa: digits, with an optional fractional
part, at least one digit in total. -/
def parseMantissa (cs : List Char) : Option ℚ :=
  let ip := cs.takeWhile Char.isDigit
  let rest := cs.dropWhile Char.isDigit
  match rest with
  | [] => if ip.isEmpty then none else some (digitsToNat ip : ℚ)
  | '.' :: fp =>
    if fp.all Char.isDigit && !(ip.isEmpty && fp.isEmpty) then
      some ((digitsToNat ip : ℚ) + (digitsToNat fp : ℚ) / 10 ^ fp.length)
    else none
  | _ => none

/-- `str.strip()`: drop leading and trailing whitespace characters. -/
def stripChars (cs : List Char) : List Char :=
  ((cs.dropWhile Char.isWhitespace).reverse.dropWhile Char.isWhitespace).reverse

/-- `str.replace(',', '')`: remove every comma. -/
def dropCommas (cs : List Char) : List Char := cs.filter (fun c => c != ',')

/-- Model of the float parsing performed by `pd.to_numeric`, on the
character list of the cell's text: optional sign, decimal mantissa,
optional decimal exponent.  Special spellings such as `inf` are not used
by the pipeline and are not modelled; the input `nan` yields `NaN` in
Python, which coincides with the coercion result `Val.na` obtained here
via parse failure. -/
def parseFloat? (cs0 : List Char) : Option ℚ :=
  let (neg, cs) := splitSign cs0
  let mant := cs.takeWhile (fun c => c != 'e' && c != 'E')
  let rest := cs.dropWhile (fun c => c != 'e' && c != 'E')
  match parseMantissa mant with
  | none => none
  | some m =>
    match rest with
    | [] => some (if neg then -m else m)
    | _ :: ecs =>
      let (eneg, ds) := splitSign ecs
      if !ds.isEmpty && ds.all Char.isDigit then
        let e := digitsToNat ds
        let v := if eneg then m / 10 ^ e else m * 10 ^ e
        some (if neg then -v else v)
      else none

/-- One cell of `limpiar_y_convertir`: `astype(str)`, drop commas, strip
whitespace, `pd.to_numeric(errors='coerce')`.  On a numeric cell the
string round trip is exact (identity); `NaN` prints as `nan` and coerces
back to `NaN`; a string cell is cleaned and parsed, unparseable cells
become the missing marker. -/
def limpiarCell (v : Val) : Val :=
  match v with
  | .num q => .num q
  | .na => .na
  | .str s =>
    match parseFloat? (stripChars (dropCommas s.data)) with
    | some q => .num q
    | none => .na

/-- The shared loop shape of the column-wise stages: for each listed column
`c`, read `df[c]`, transform it with `f`, and assign it back. -/
def applyCols (f : List Val → List Val) (t : Table) (cols : List String) : Table :=
  cols.foldl (fun t c => setCol t c (f (getCol t c))) t

/-- The default variable list of the model (named `variables` in the
source; that spelling is a reserved word here). -/
def variablesModelo : List String :=
  ["A", "B", "C", "D", "E", "H", "J", "M", "N", "O", "P", "Q", "R", "S", "Monto"]

/-- `seleccion_variables`: project onto `lista_vars` via `df[lista_vars]`.
pandas raises a `KeyError` naming exactly the requested columns that are
absent; the source re-raises it.  The embedding returns the missing-column
list as the error value. -/
def seleccion_variables (t : Table) (lista_vars : List String) :
    Except (List String) Table :=
  let missing := lista_vars.filter (fun c => !(names t).contains c)
  if missing.isEmpty then Except.ok (lista_vars.map (fun c => (c, getCol t c)))
  else Except.error missing

/-- The per-column effect of `limpiar_y_convertir` (the two assignments in
the source loop body fused: clean the text, then coerce to numeric). -/
def limpiarCol (col : List Val) : List Val := col.map limpiarCell

/-- `limpiar_y_convertir`. -/
def limpiar_y_convertir (t : Table) (columnas : List String) : Table :=
  applyCols limpiarCol t columnas

/-- The per-column effect of `reemplazar_negativos_por_mediana`:
`mediana = df[col].median(skipna=True)` then
`df[col] = np.where(df[col] < 0, mediana, df[col])`. -/
def replaceNegCol (col : List Val) : List Val :=
  let mediana := medianCol col
  col.map (fun v => if valLt v 0 then valOfOpt mediana else v)

/-- `reemplazar_negativos_por_mediana`. -/
def reemplazar_negativos_por_mediana (t : Table) (columnas : List String) : Table :=
  applyCols replaceNegCol t columnas

/-- The per-column effect of `imputar_nulos_por_mediana`:
`df[col] = df[col].fillna(df[col].median(skipna=True))`. -/
def fillNaCol (col : List Val) : List Val :=
  let mediana := medianCol col
  col.map (fun v => match v with | .na => valOfOpt mediana | w => w)

/-- `imputar_nulos_por_mediana`. -/
def imputar_nulos_por_mediana (t : Table) (columnas : List String) : Table :=
  applyCols fillNaCol t columnas

/-- `df[columna].isin(categorias)` on one cell: only a string cell can
match the (string) category list; `NaN` never matches. -/
def isinVal (v : Val) (cats : List String) : Bool :=
  match v with
  | .str s => cats.contains s
  | _ => false

/-- One cell of the collapsing assignment
`np.where(df[columna].isin(categorias_principales), df[columna], 'OTROS')`:
note that the source hardcodes the literal `'OTROS'`, independently of the
`referencia` parameter. -/
def collapseCell (cats : List String) (v : Val) : Val :=
  if isinVal v cats then v else .str "OTROS"

/-- The text a cell contributes to an f-string (`f"{columna}_{cat}"`);
after collapsing, the category cells are all strings. -/
def valName : Val → String
  | .str s => s
  | .num q => toString q
  | .na => "nan"

/-- `Series.unique()`: distinct values in order of first appearance. -/
def uniqueVals (col : List Val) : List Val :=
  col.foldl (fun acc v => if v ∈ acc then acc else acc ++ [v]) []

/-- `dummificar_var_categorica`: collapse the long tail into `'OTROS'`,
create one indicator column per distinct present value other than
`referencia`, drop the original column.  (`df.copy()` is the identity on
table values; the copy semantics are modelled separately on the store.) -/
def dummificar_var_categorica (t : Table) (columna : String)
    (categorias_principales : List String) (referencia : String) : Table :=
  let rew := (getCol t columna).map (collapseCell categorias_principales)
  let t1 := setCol t columna rew
  let categorias := (uniqueVals rew).filter (fun c => c != Val.str referencia)
  let t2 := categorias.foldl
    (fun acc cat =>
      setCol acc (columna ++ "_" ++ valName cat)
        (rew.map (fun v => if v = cat then Val.num 1 else Val.num 0))) t1
  dropColumn t2 columna

/-- One binarized cell: `np.where(df[col] > corte, 1, 0)`. -/
def binCol (corte : ℚ) (col : List Val) : List Val :=
  col.map (fun v => if valGt v corte then Val.num 1 else Val.num 0)

/-- One loop step of `binarizar_variables`: guarded by
`if col in df.columns`. -/
def binStep (corte : ℚ) (t : Table) (c : String) : Table :=
  if c ∈ names t then setCol t c (binCol corte (getCol t c)) else t

/-- `binarizar_variables`: cut-at-0 columns first, then cut-at-1 columns;
absent columns are silently skipped. -/
def binarizar_variables (t : Table) (vars_corte_0 vars_corte_1 : List String) :
    Table :=
  let t1 := vars_corte_0.foldl (binStep 0) t
  vars_corte_1.foldl (binStep 1) t1

/-- One cell of `np.where(df[col] >= 0, np.sqrt(df[col]), np.nan)`; the
numeric square root itself is abstracted as `sq` (its values are not needed
by any verified property, and square roots of rationals are irrational in
general). -/
def sqrtCol (sq : ℚ → ℚ) (col : List Val) : List Val :=
  col.map (fun v =>
    match v with
    | .num x => if 0 ≤ x then Val.num (sq x) else Val.na
    | _ => Val.na)

/-- `transformacion_raiz_cuadrada` (`df.copy()` is the identity on table
values). -/
def transformacion_raiz_cuadrada (sq : ℚ → ℚ) (t : Table) (vars : List String) :
    Table :=
  applyCols (sqrtCol sq) t vars

/-- The two failure modes of `joblib.load`. -/
inductive LoadErr where
  | fileNotFound
  | other (msg : String)
deriving DecidableEq

/-- The outcome of a Python call at its caller: a normal return value, or a
propagated (uncaught) exception. -/
inductive PyOutcome (α : Type) where
  | ret (a : α)
  | raised (msg : String)
deriving DecidableEq

/-- `cargar_modelo`: the `joblib.load` call is modelled by its result
`loadResult`.  Both `except` arms print a message and fall off the end of
the function, returning `None`; no exception propagates.  The returned pair
carries the printed message. -/
def cargar_modelo {α : Type} (loadResult : Except LoadErr α)
    (ruta_modelo : String) : PyOutcome (Option α × String) :=
  match loadResult with
  | .ok m => .ret (some m, "Modelo cargado correctamente desde: " ++ ruta_modelo)
  | .error .fileNotFound =>
      .ret (none, "No se encontró el archivo en la ruta: " ++ ruta_modelo)
  | .error (.other e) => .ret (none, "Error al cargar el modelo: " ++ e)

/-- The default decision threshold (`umbral`). -/
def umbralDefecto : ℚ := 0.565

/-- One cell of `np.where(df["PROB_FRAUDE"] >= umbral, 1, 0)`. -/
def predLabel (umbral : ℚ) (v : Val) : Val :=
  if valGe v umbral then Val.num 1 else Val.num 0

/-- `ejecutar_modelo`: `modelo` models `predict_proba(...)[:, 1]`, returning
either the positive-class probability list or a raised exception.  On
failure the `except` arm returns `df` — the fresh copy, whose value equals
the input table.  (`df.copy()` is the identity on table values.) -/
def ejecutar_modelo (modelo : Table → Except String (List ℚ)) (df : Table)
    (umbral : ℚ) : Table :=
  match modelo df with
  | .error _ => df
  | .ok probs =>
    let t1 := setCol df "PROB_FRAUDE" (probs.map Val.num)
    setCol t1 "PRED_FRAUDE" ((getCol t1 "PROB_FRAUDE").map (predLabel umbral))

/-- A store of DataFrame objects: Python references are indices, allocation
appends.  Used to model which functions mutate their caller's object. -/
abbrev Store := List Table

/-- Dereference (out-of-range reads give the empty table). -/
def readRef (s : Store) (r : ℕ) : Table := s.getD r []

/-- In-place update of the object behind a reference. -/
def writeRef (s : Store) (r : ℕ) (t : Table) : Store := s.set r t

/-- Allocate a fresh DataFrame object (`df.copy()`, `df.drop(...)`, …). -/
def allocRef (s : Store) (t : Table) : Store × ℕ := (s ++ [t], s.length)

/-- `dummificar_var_categorica` on the store: `df = df.copy()` allocates a
fresh object, the column assignments mutate only that copy, and
`df = df.drop(columns=columna)` allocates the returned frame; the caller's
object at `r` is never written. -/
def dummificarM (s : Store) (r : ℕ) (columna : String)
    (categorias_principales : List String) (referencia : String) : Store × ℕ :=
  let s1 := s ++ [readRef s r]
  let r1 := s.length
  let rew := (getCol (readRef s1 r1) columna).map
    (collapseCell categorias_principales)
  let s2 := writeRef s1 r1 (setCol (readRef s1 r1) columna rew)
  let categorias := (uniqueVals rew).filter (fun c => c != Val.str referencia)
  let s3 := categorias.foldl
    (fun st cat => writeRef st r1 (setCol (readRef st r1)
      (columna ++ "_" ++ valName cat)
      (rew.map (fun v => if v = cat then Val.num 1 else Val.num 0)))) s2
  (s3 ++ [dropColumn (readRef s3 r1) columna], s3.length)

/-- `binarizar_variables` on the store: copy, then in-place column
assignments on the copy (a skipped absent column writes the frame back
unchanged). -/
def binarizarM (s : Store) (r : ℕ) (vars_corte_0 vars_corte_1 : List String) :
    Store × ℕ :=
  let s1 := s ++ [readRef s r]
  let r1 := s.length
  let s2 := vars_corte_0.foldl
    (fun st c => writeRef st r1 (binStep 0 (readRef st r1) c)) s1
  let s3 := vars_corte_1.foldl
    (fun st c => writeRef st r1 (binStep 1 (readRef st r1) c)) s2
  (s3, r1)

/-- `transformacion_raiz_cuadrada` on the store: copy, then in-place
column assignments on the copy. -/
def transformacionM (sq : ℚ → ℚ) (s : Store) (r : ℕ) (vars : List String) :
    Store × ℕ :=
  let s1 := s ++ [readRef s r]
  let r1 := s.length
  let s2 := vars.foldl
    (fun st c => writeRef st r1 (setCol (readRef st r1) c
      (sqrtCol sq (getCol (readRef st r1) c)))) s1
  (s2, r1)

/-- `ejecutar_modelo` on the store: `df = df.copy()` first, then the two
column assignments on the copy; on a scoring exception the `except` arm
returns the copy untouched. -/
def ejecutarM (modelo : Table → Except String (List ℚ)) (s : Store) (r : ℕ)
    (umbral : ℚ) : Store × ℕ :=
  let s1 := s ++ [readRef s r]
  let r1 := s.length
  match modelo (readRef s1 r1) with
  | .error _ => (s1, r1)
  | .ok probs =>
    let s2 := writeRef s1 r1 (setCol (readRef s1 r1) "PROB_FRAUDE"
      (probs.map Val.num))
    let s3 := writeRef s2 r1 (setCol (readRef s2 r1) "PRED_FRAUDE"
      ((getCol (readRef s2 r1) "PROB_FRAUDE").map (predLabel umbral)))
    (s3, r1)

/-! ## Basic lemmas about the table operations -/

theorem names_cons (p : String × List Val) (ps : Table) :
    names (p :: ps) = p.1 :: names ps := rfl

theorem names_append (t u : Table) : names (t ++ u) = names t ++ names u := by
  simp [names]

theorem getCol_cons (p : String × List Val) (ps : Table) (c : String) :
    getCol (p :: ps) c = if p.1 = c then p.2 else getCol ps c := rfl

theorem getCol_eq_nil {c : String} :
    ∀ {t : Table}, c ∉ names t → getCol t c = [] := by
  intro t
  induction t with
  | nil => intro _; rfl
  | cons p ps ih =>
    intro h
    rw [names_cons, List.mem_cons, not_or] at h
    rw [getCol_cons, if_neg (fun he => h.1 he.symm)]
    exact ih h.2

theorem getCol_append_left {t : Table} {c : String} (u : Table)
    (h : c ∈ names t) : getCol (t ++ u) c = getCol t c := by
  induction t with
  | nil => simp [names] at h
  | cons p ps ih =>
    rw [names_cons, List.mem_cons] at h
    by_cases hp : p.1 = c
    · simp [getCol_cons, hp]
    · have hmem : c ∈ names ps := by
        rcases h with h | h
        · exact absurd h.symm hp
        · exact h
      simpa [getCol_cons, hp] using ih hmem

theorem getCol_append_right {t : Table} {c : String} (u : Table)
    (h : c ∉ names t) : getCol (t ++ u) c = getCol u c := by
  induction t with
  | nil => rfl
  | cons p ps ih =>
    rw [names_cons, List.mem_cons, not_or] at h
    rw [List.cons_append, getCol_cons, if_neg (fun he => h.1 he.symm)]
    exact ih h.2

theorem setCol_eq_append {t : Table} {c : String} (v : List Val)
    (h : c ∉ names t) : setCol t c v = t ++ [(c, v)] := by
  unfold setCol
  rw [if_neg h]

theorem getCol_setCol_self (t : Table) (c : String) (v : List Val) :
    getCol (setCol t c v) c = v := by
  unfold setCol
  split
  · rename_i hmem
    induction t with
    | nil => simp [names] at hmem
    | cons p ps ih =>
      rw [names_cons, List.mem_cons] at hmem
      by_cases hp : p.1 = c
      · simp [getCol_cons, hp]
      · have hmem2 : c ∈ names ps := by
          rcases hmem with h | h
          · exact absurd h.symm hp
          · exact h
        simpa [getCol_cons, hp] using ih hmem2
  · rename_i hmem
    rw [getCol_append_right _ hmem]
    simp [getCol_cons]

theorem getCol_mapUpdate_ne (t : Table) {c c' : String} (v : List Val)
    (h : c' ≠ c) :
    getCol (t.map (fun p => if p.1 = c then (c, v) else p)) c' = getCol t c' := by
  induction t with
  | nil => rfl
  | cons p ps ih =>
    rw [List.map_cons]
    by_cases hp : p.1 = c
    · rw [if_pos hp, getCol_cons, getCol_cons]
      rw [if_neg (fun he : c = c' => h he.symm)]
      rw [if_neg (fun he : p.1 = c' => h (hp.symm.trans he).symm)]
      exact ih
    · rw [if_neg hp, getCol_cons, getCol_cons]
      by_cases hpc : p.1 = c'
      · rw [if_pos hpc, if_pos hpc]
      · rw [if_neg hpc, if_neg hpc]
        exact ih

theorem getCol_setCol_ne (t : Table) {c c' : String} (v : List Val)
    (h : c' ≠ c) : getCol (setCol t c v) c' = getCol t c' := by
  unfold setCol
  split
  · exact getCol_mapUpdate_ne t v h
  · by_cases hmem : c' ∈ names t
    · exact getCol_append_left _ hmem
    · rw [getCol_append_right _ hmem, getCol_eq_nil hmem, getCol_cons]
      rw [if_neg (fun he : c = c' => h he.symm)]
      rfl

theorem names_mapUpdate (t : Table) (c : String) (v : List Val) :
    names (t.map (fun p => if p.1 = c then (c, v) else p)) = names t := by
  induction t with
  | nil => rfl
  | cons p ps ih =>
    by_cases hp : p.1 = c
    · simp only [List.map_cons, if_pos hp, names_cons, ih]
      rw [hp]
    · simp only [List.map_cons, if_neg hp, names_cons, ih]

theorem names_setCol_of_mem {t : Table} {c : String} (v : List Val)
    (h : c ∈ names t) : names (setCol t c v) = names t := by
  unfold setCol
  rw [if_pos h]
  exact names_mapUpdate t c v

theorem names_setCol_of_not_mem {t : Table} {c : String} (v : List Val)
    (h : c ∉ names t) : names (setCol t c v) = names t ++ [c] := by
  rw [setCol_eq_append v h, names_append]
  rfl

theorem WF_append {t u : Table} {n : ℕ} (ht : WF t n) (hu : WF u n) :
    WF (t ++ u) n := by
  intro p hp
  rcases List.mem_append.mp hp with h | h
  · exact ht p h
  · exact hu p h

theorem WF_setCol {t : Table} {n : ℕ} {c : String} {v : List Val}
    (hw : WF t n) (hv : v.length = n) : WF (setCol t c v) n := by
  unfold setCol
  split
  · intro p hp
    rcases List.mem_map.mp hp with ⟨q, hq, he⟩
    by_cases hqc : q.1 = c
    · rw [if_pos hqc] at he
      rw [← he]
      exact hv
    · rw [if_neg hqc] at he
      rw [← he]
      exact hw q hq
  · refine WF_append hw ?_
    intro p hp
    rw [List.mem_singleton] at hp
    rw [hp]
    exact hv

theorem WF_filter {t : Table} {n : ℕ} (hw : WF t n) (f : String × List Val → Bool) :
    WF (t.filter f) n := by
  intro p hp
  exact hw p (List.mem_of_mem_filter hp)

theorem getCol_length {t : Table} {n : ℕ} {c : String} (hw : WF t n)
    (h : c ∈ names t) : (getCol t c).length = n := by
  induction t with
  | nil => simp [names] at h
  | cons p ps ih =>
    rw [names_cons, List.mem_cons] at h
    rw [getCol_cons]
    by_cases hp : p.1 = c
    · rw [if_pos hp]
      exact hw p (List.mem_cons_self _ _)
    · rw [if_neg hp]
      have hmem : c ∈ names ps := by
        rcases h with h | h
        · exact absurd h.symm hp
        · exact h
      exact ih (fun q hq => hw q (List.mem_cons_of_mem _ hq)) hmem

/-! ## Extensionality and the shared loop shape -/

theorem table_ext : ∀ {t1 t2 : Table}, names t1 = names t2 →
    (names t1).Nodup → (∀ c, getCol t1 c = getCol t2 c) → t1 = t2 := by
  intro t1
  induction t1 with
  | nil =>
    intro t2 hn _ _
    cases t2 with
    | nil => rfl
    | cons q qs => simp [names] at hn
  | cons p ps ih =>
    intro t2 hn hnd hg
    cases t2 with
    | nil => simp [names] at hn
    | cons q qs =>
      rw [names_cons, names_cons] at hn
      injection hn with h1 h2
      rw [names_cons] at hnd
      have hnd1 := List.nodup_cons.mp hnd
      have hv : p.2 = q.2 := by
        have h := hg p.1
        rw [getCol_cons, getCol_cons, if_pos rfl, if_pos h1.symm] at h
        exact h
      have htail : ps = qs := by
        refine ih h2 hnd1.2 ?_
        intro c
        by_cases hc : p.1 = c
        · rw [← hc, getCol_eq_nil hnd1.1, getCol_eq_nil (h2 ▸ hnd1.1)]
        · have h := hg c
          rw [getCol_cons, getCol_cons, if_neg hc, if_neg (h1 ▸ hc)] at h
          exact h
      obtain ⟨pa, pb⟩ := p
      obtain ⟨qa, qb⟩ := q
      simp only at h1 hv
      rw [h1, hv, htail]

theorem applyCols_cons (f : List Val → List Val) (t : Table) (a : String)
    (cs : List String) :
    applyCols f t (a :: cs) = applyCols f (setCol t a (f (getCol t a))) cs := rfl

theorem applyCols_getCol (f : List Val → List Val) :
    ∀ (cols : List String), cols.Nodup → ∀ (t : Table) (c : String),
      getCol (applyCols f t cols) c =
        if c ∈ cols then f (getCol t c) else getCol t c := by
  intro cols
  induction cols with
  | nil =>
    intro _ t c
    simp [applyCols]
  | cons a cs ih =>
    intro hnd t c
    rw [List.nodup_cons] at hnd
    rw [applyCols_cons, ih hnd.2]
    by_cases hc : c ∈ cs
    · have hca : c ≠ a := fun he => hnd.1 (he ▸ hc)
      rw [if_pos hc, getCol_setCol_ne t _ hca, if_pos (List.mem_cons_of_mem _ hc)]
    · rw [if_neg hc]
      by_cases hca : c = a
      · subst hca
        rw [getCol_setCol_self, if_pos (List.mem_cons_self _ _)]
      · rw [getCol_setCol_ne t _ hca,
          if_neg (by rw [List.mem_cons, not_or]; exact ⟨hca, hc⟩)]

theorem applyCols_names (f : List Val → List Val) :
    ∀ (cols : List String) (t : Table), (∀ c ∈ cols, c ∈ names t) →
      names (applyCols f t cols) = names t := by
  intro cols
  induction cols with
  | nil =>
    intro t _
    rfl
  | cons a cs ih =>
    intro t hsub
    have ha : a ∈ names t := hsub a (List.mem_cons_self _ _)
    have hstep : names (setCol t a (f (getCol t a))) = names t :=
      names_setCol_of_mem _ ha
    rw [applyCols_cons, ih _ (fun c hc => by
      rw [hstep]; exact hsub c (List.mem_cons_of_mem _ hc)), hstep]

theorem applyCols_WF (f : List Val → List Val)
    (hf : ∀ col, (f col).length = col.length) :
    ∀ (cols : List String) (t : Table) (n : ℕ), WF t n →
      (∀ c ∈ cols, c ∈ names t) → WF (applyCols f t cols) n := by
  intro cols
  induction cols with
  | nil =>
    intro t n hw _
    exact hw
  | cons a cs ih =>
    intro t n hw hsub
    have ha : a ∈ names t := hsub a (List.mem_cons_self _ _)
    have hlen : (f (getCol t a)).length = n := by
      rw [hf, getCol_length hw ha]
    rw [applyCols_cons]
    refine ih _ n (WF_setCol hw hlen) ?_
    intro c hc
    rw [names_setCol_of_mem _ ha]
    exact hsub c (List.mem_cons_of_mem _ hc)

/-! ## Appending fresh columns, dropping columns, unique values -/

theorem foldl_setCol_fresh {γ : Type} (dn : γ → String) (dv : γ → List Val) :
    ∀ (l : List γ) (base : Table),
      (∀ a ∈ l, dn a ∉ names base) →
      l.Pairwise (fun a b => dn a ≠ dn b) →
      l.foldl (fun t a => setCol t (dn a) (dv a)) base =
        base ++ l.map (fun a => (dn a, dv a)) := by
  intro l
  induction l with
  | nil =>
    intro base _ _
    simp
  | cons a as ih =>
    intro base hfresh hpw
    rw [List.pairwise_cons] at hpw
    have h1 : dn a ∉ names base := hfresh a (List.mem_cons_self _ _)
    rw [List.foldl_cons, setCol_eq_append _ h1, ih _ ?_ hpw.2]
    · rw [List.append_assoc]
      rfl
    · intro b hb
      rw [names_append, List.mem_append, not_or]
      refine ⟨hfresh b (List.mem_cons_of_mem _ hb), ?_⟩
      have : dn a ≠ dn b := hpw.1 b hb
      simp only [names, List.map_cons, List.map_nil, List.mem_singleton]
      exact fun he => this he.symm

theorem dropColumn_append (t u : Table) (c : String) :
    dropColumn (t ++ u) c = dropColumn t c ++ dropColumn u c := by
  simp [dropColumn]

theorem dropColumn_eq_self {t : Table} {c : String}
    (h : ∀ p ∈ t, p.1 ≠ c) : dropColumn t c = t := by
  rw [dropColumn, List.filter_eq_self]
  intro p hp
  exact bne_iff_ne.mpr (h p hp)

theorem dropColumn_mapUpdate (t : Table) (c : String) (v : List Val) :
    dropColumn (t.map (fun p => if p.1 = c then (c, v) else p)) c =
      dropColumn t c := by
  induction t with
  | nil => rfl
  | cons p ps ih =>
    simp only [dropColumn, List.map_cons, List.filter_cons] at ih ⊢
    by_cases hp : p.1 = c
    · rw [if_pos hp]
      simp only [hp, bne_self_eq_false, Bool.false_eq_true, if_false]
      exact ih
    · rw [if_neg hp, bne_iff_ne.mpr hp]
      simp only [if_true]
      rw [ih]

theorem dropColumn_setCol_self (t : Table) (c : String) (v : List Val) :
    dropColumn (setCol t c v) c = dropColumn t c := by
  unfold setCol
  split
  · exact dropColumn_mapUpdate t c v
  · rw [dropColumn_append]
    have h : dropColumn [(c, v)] c = [] := by
      simp [dropColumn]
    rw [h, List.append_nil]

theorem uniqueVals_aux_nodup :
    ∀ (col : List Val) (acc : List Val), acc.Nodup →
      (col.foldl (fun acc v => if v ∈ acc then acc else acc ++ [v]) acc).Nodup := by
  intro col
  induction col with
  | nil =>
    intro acc h
    exact h
  | cons v vs ih =>
    intro acc h
    rw [List.foldl_cons]
    by_cases hv : v ∈ acc
    · rw [if_pos hv]
      exact ih _ h
    · rw [if_neg hv]
      refine ih _ ?_
      rw [List.nodup_append]
      exact ⟨h, List.nodup_singleton v, by simpa [List.disjoint_right] using hv⟩

theorem uniqueVals_nodup (col : List Val) : (uniqueVals col).Nodup :=
  uniqueVals_aux_nodup col [] List.nodup_nil

theorem uniqueVals_aux_sub :
    ∀ (col : List Val) (acc : List Val) (x : Val),
      x ∈ col.foldl (fun acc v => if v ∈ acc then acc else acc ++ [v]) acc →
      x ∈ acc ∨ x ∈ col := by
  intro col
  induction col with
  | nil =>
    intro acc x h
    exact Or.inl h
  | cons v vs ih =>
    intro acc x h
    rw [List.foldl_cons] at h
    by_cases hv : v ∈ acc
    · rw [if_pos hv] at h
      rcases ih _ _ h with h | h
      · exact Or.inl h
      · exact Or.inr (List.mem_cons_of_mem _ h)
    · rw [if_neg hv] at h
      rcases ih _ _ h with h | h
      · rcases List.mem_append.mp h with h | h
        · exact Or.inl h
        · rw [List.mem_singleton] at h
          exact Or.inr (h ▸ List.mem_cons_self _ _)
      · exact Or.inr (List.mem_cons_of_mem _ h)

theorem uniqueVals_sub {col : List Val} {x : Val} (h : x ∈ uniqueVals col) :
    x ∈ col := by
  rcases uniqueVals_aux_sub col [] x h with h | h
  · cases h
  · exact h

/-! ## String helper lemmas -/

theorem string_append_left_cancel {a b c : String} (h : a ++ b = a ++ c) :
    b = c := by
  have hd := congrArg String.data h
  rw [String.data_append, String.data_append] at hd
  exact String.ext (List.append_cancel_left hd)

theorem dname_ne_base (columna x : String) : columna ++ "_" ++ x ≠ columna := by
  intro h
  have hl := congrArg String.length h
  rw [String.length_append, String.length_append] at hl
  have h1 : ("_" : String).length = 1 := rfl
  omega

theorem contains_iff_mem {l : List String} {c : String} :
    l.contains c = true ↔ c ∈ l := List.elem_iff

/-! ## Inversion for the column selector -/

theorem seleccion_ok_inv {t : Table} {lista_vars : List String} {t2 : Table}
    (h : seleccion_variables t lista_vars = Except.ok t2) :
    (∀ c ∈ lista_vars, c ∈ names t) ∧
      t2 = lista_vars.map (fun c => (c, getCol t c)) := by
  have h : (if (lista_vars.filter (fun c => !(names t).contains c)).isEmpty = true
      then (Except.ok (lista_vars.map (fun c => (c, getCol t c))) :
        Except (List String) Table)
      else Except.error (lista_vars.filter (fun c => !(names t).contains c))) =
      Except.ok t2 := h
  split at h
  · rename_i hemp
    refine ⟨?_, (Except.ok.injEq _ _ ▸ h).symm⟩
    intro c hc
    have hnil := List.isEmpty_iff.mp hemp
    have := (List.filter_eq_nil_iff.mp hnil) c hc
    simp only [Bool.not_eq_true', Bool.not_eq_false] at this
    exact contains_iff_mem.mp this
  · cases h

/-- C2 (counterexample): for the column `[-5, 2, 4, missing]` the source
computes the median of the non-missing values `[-5, 2, 4]`, which is `2`
(middle element), not `3` as the claim states, and the corrected column is
`[2, 2, 4, missing]`, not `[3, 2, 4, missing]`. -/
theorem claim_C2_counterexample :
    medianCol [Val.num (-5), Val.num 2, Val.num 4, Val.na] = some 2 ∧
    medianCol [Val.num (-5), Val.num 2, Val.num 4, Val.na] ≠ some 3 ∧
    getCol (reemplazar_negativos_por_mediana
        [("x", [Val.num (-5), Val.num 2, Val.num 4, Val.na])] ["x"]) "x" =
      [Val.num 2, Val.num 2, Val.num 4, Val.na] ∧
    getCol (reemplazar_negativos_por_mediana
        [("x", [Val.num (-5), Val.num 2, Val.num 4, Val.na])] ["x"]) "x" ≠
      [Val.num 3, Val.num 2, Val.num 4, Val.na] := by
  refine ⟨rfl, by decide, rfl, by decide⟩

/-- C2 (amended): for a column holding `[-5, 2, 4, missing]` the median of
the non-missing values is `2` (the median is computed over the whole
column, including the negative value), and the corrected column is
`[2, 2, 4, missing]` — the missing cell stays missing. -/
theorem claim_C2 :
    medianCol [Val.num (-5), Val.num 2, Val.num 4, Val.na] = some 2 ∧
    reemplazar_negativos_por_mediana
        [("x", [Val.num (-5), Val.num 2, Val.num 4, Val.na])] ["x"] =
      [("x", [Val.num 2, Val.num 2, Val.num 4, Val.na])] := by
  exact ⟨rfl, rfl⟩

/-! ## Claim C3 -/

/-- C3 (counterexample): `cargar_modelo` does not surface a "not found"
error nor a load-failure error: both `except` arms swallow the exception,
print a message, and return `None`.  At both failing inputs the call
returns normally (`PyOutcome.ret`) with no artifact. -/
theorem claim_C3_counterexample :
    cargar_modelo (Except.error LoadErr.fileNotFound : Except LoadErr Unit)
        "modelo.joblib" =
      PyOutcome.ret (none,
        "No se encontró el archivo en la ruta: modelo.joblib") ∧
    cargar_modelo (Except.error (LoadErr.other "archivo corrupto") :
        Except LoadErr Unit) "modelo.joblib" =
      PyOutcome.ret (none, "Error al cargar el modelo: archivo corrupto") := by
  exact ⟨rfl, rfl⟩

/-- C3 (amended): on a failing load, `cargar_modelo` catches the exception
and returns `None` with only a printed message — the "not found" case and
the generic load-failure case are distinguished solely by the message text,
and no call of `cargar_modelo` ever propagates an exception to the
caller. -/
theorem claim_C3 {α : Type} (ruta_modelo msg : String) :
    cargar_modelo (Except.error LoadErr.fileNotFound : Except LoadErr α)
        ruta_modelo =
      PyOutcome.ret (none,
        "No se encontró el archivo en la ruta: " ++ ruta_modelo) ∧
    cargar_modelo (Except.error (LoadErr.other msg) : Except LoadErr α)
        ruta_modelo =
      PyOutcome.ret (none, "Error al cargar el modelo: " ++ msg) ∧
    ∀ loadResult : Except LoadErr α, ∃ out,
      cargar_modelo loadResult ruta_modelo = PyOutcome.ret out := by
  refine ⟨rfl, rfl, ?_⟩
  intro loadResult
  match loadResult with
  | .ok m => exact ⟨_, rfl⟩
  | .error .fileNotFound => exact ⟨_, rfl⟩
  | .error (.other e) => exact ⟨_, rfl⟩

/-! ## Claim C6 -/

/-- C7: for each listed column (distinct names, all present), the corrector
maps every cell strictly below zero to the median of the column's
non-missing values, and leaves cells `>= 0` and missing cells unchanged
(the `if` guard `valLt v 0` is false on `Val.na`, so missing stays
missing); columns not listed are untouched; and processing the columns in
any other order yields the same table. -/
theorem claim_C7 (t : Table) (columnas columnas2 : List String)
    (hnd : columnas.Nodup) (hn : (names t).Nodup)
    (hsub : ∀ c ∈ columnas, c ∈ names t)
    (hperm : columnas2.Perm columnas) :
    (∀ c ∈ columnas,
      getCol (reemplazar_negativos_por_mediana t columnas) c =
        (getCol t c).map (fun v =>
          if valLt v 0 then valOfOpt (medianCol (getCol t c)) else v)) ∧
    (∀ c, c ∉ columnas →
      getCol (reemplazar_negativos_por_mediana t columnas) c = getCol t c) ∧
    reemplazar_negativos_por_mediana t columnas2 =
      reemplazar_negativos_por_mediana t columnas := by
  have hchar : ∀ (cols : List String), cols.Nodup → ∀ c,
      getCol (reemplazar_negativos_por_mediana t cols) c =
        if c ∈ cols then replaceNegCol (getCol t c) else getCol t c :=
    fun cols hcols c => applyCols_getCol replaceNegCol cols hcols t c
  refine ⟨?_, ?_, ?_⟩
  · intro c hc
    rw [hchar columnas hnd c, if_pos hc]
    rfl
  · intro c hc
    rw [hchar columnas hnd c, if_neg hc]
  · have hnd2 : columnas2.Nodup := hperm.nodup_iff.mpr hnd
    have hsub2 : ∀ c ∈ columnas2, c ∈ names t :=
      fun c hc => hsub c (hperm.mem_iff.mp hc)
    have hnames2 : names (reemplazar_negativos_por_mediana t columnas2) =
        names t := applyCols_names _ _ _ hsub2
    have hnames1 : names (reemplazar_negativos_por_mediana t columnas) =
        names t := applyCols_names _ _ _ hsub
    refine table_ext (hnames2.trans hnames1.symm) (hnames2 ▸ hn) ?_
    intro c
    rw [hchar columnas hnd c, hchar columnas2 hnd2 c]
    by_cases hc : c ∈ columnas
    · rw [if_pos hc, if_pos (hperm.mem_iff.mpr hc)]
    · rw [if_neg hc, if_neg (fun h2 => hc (hperm.mem_iff.mp h2))]

/-- C7 (witness): on a two-column table, the listed column `x` (holding
`[-4, 1, 5, missing]`, median `1`) is corrected pointwise, the unlisted
column name `zz` is untouched, and processing `["y", "x"]` equals
processing `["x", "y"]`. -/
theorem claim_C7_witness :
    getCol (reemplazar_negativos_por_mediana
        [("x", [Val.num (-4), Val.num 1, Val.num 5, Val.na]),
         ("y", [Val.num (-7)])] ["x", "y"]) "x" =
      [Val.num 1, Val.num 1, Val.num 5, Val.na] ∧
    getCol (reemplazar_negativos_por_mediana
        [("x", [Val.num (-4), Val.num 1, Val.num 5, Val.na]),
         ("y", [Val.num (-7)])] ["x", "y"]) "zz" =
      getCol [("x", [Val.num (-4), Val.num 1, Val.num 5, Val.na]),
        ("y", [Val.num (-7)])] "zz" ∧
    reemplazar_negativos_por_mediana
        [("x", [Val.num (-4), Val.num 1, Val.num 5, Val.na]),
         ("y", [Val.num (-7)])] ["y", "x"] =
      reemplazar_negativos_por_mediana
        [("x", [Val.num (-4), Val.num 1, Val.num 5, Val.na]),
         ("y", [Val.num (-7)])] ["x", "y"] := by
  have h := claim_C7
    [("x", [Val.num (-4), Val.num 1, Val.num 5, Val.na]), ("y", [Val.num (-7)])]
    ["x", "y"] ["y", "x"] (by decide) (by decide) (by decide) (by decide)
  exact ⟨(h.1 "x" (by decide)).trans rfl,
    h.2.1 "zz" (by decide), h.2.2⟩

/-! ## Claim C8 -/

theorem limpiarCell_idem (v : Val) :
    limpiarCell (limpiarCell v) = limpiarCell v := by
  cases v with
  | num q => rfl
  | na => rfl
  | str s =>
    have h : limpiarCell (Val.str s) =
        match parseFloat? (stripChars (dropCommas s.data)) with
        | some q => Val.num q
        | none => Val.na := rfl
    rw [h]
    cases parseFloat? (stripChars (dropCommas s.data)) with
    | none => rfl
    | some q => rfl

theorem limpiarCol_idem (col : List Val) :
    limpiarCol (limpiarCol col) = limpiarCol col := by
  unfold limpiarCol
  rw [List.map_map]
  exact List.map_congr_left (fun v _ => limpiarCell_idem v)

/-- C8: the normalizer maps `"1,234.8"` to `1234.8`, `"  42 "` to `42.0`
and the unparseable `"N/A"` to the missing marker (the stage is a total
function — no exception is possible); and it is idempotent: re-running it
over the same (distinct, present) columns is a no-op. -/
theorem claim_C8 (t : Table) (columnas : List String)
    (hnd : columnas.Nodup) (hn : (names t).Nodup)
    (hsub : ∀ c ∈ columnas, c ∈ names t) :
    getCol (limpiar_y_convertir
        [("m", [Val.str "1,234.8", Val.str "  42 ", Val.str "N/A"])] ["m"])
        "m" =
      [Val.num (6174/5), Val.num 42, Val.na] ∧
    limpiar_y_convertir (limpiar_y_convertir t columnas) columnas =
      limpiar_y_convertir t columnas := by
  constructor
  · have hv : getCol (limpiar_y_convertir
        [("m", [Val.str "1,234.8", Val.str "  42 ", Val.str "N/A"])] ["m"])
        "m" =
        [limpiarCell (Val.str "1,234.8"), limpiarCell (Val.str "  42 "),
          limpiarCell (Val.str "N/A")] := rfl
    have h1 : limpiarCell (Val.str "1,234.8") =
        Val.num ((1234 : ℚ) + 8 / 10 ^ 1) := rfl
    have h2 : limpiarCell (Val.str "  42 ") = Val.num 42 := rfl
    have h3 : limpiarCell (Val.str "N/A") = Val.na := rfl
    have harith : (1234 : ℚ) + 8 / 10 ^ 1 = 6174 / 5 := by norm_num
    rw [hv, h1, h2, h3, harith]
  · have hnames1 : names (limpiar_y_convertir t columnas) = names t :=
      applyCols_names _ _ _ hsub
    have hsub1 : ∀ c ∈ columnas, c ∈ names (limpiar_y_convertir t columnas) :=
      fun c hc => hnames1 ▸ hsub c hc
    have hnames2 : names (limpiar_y_convertir (limpiar_y_convertir t columnas)
        columnas) = names (limpiar_y_convertir t columnas) :=
      applyCols_names _ _ _ hsub1
    refine table_ext hnames2 (by rw [hnames2, hnames1]; exact hn) ?_
    intro c
    unfold limpiar_y_convertir
    rw [applyCols_getCol limpiarCol columnas hnd _ c,
      applyCols_getCol limpiarCol columnas hnd _ c]
    by_cases hc : c ∈ columnas
    · rw [if_pos hc, if_pos hc, limpiarCol_idem]
    · rw [if_neg hc, if_neg hc]

/-- C8 (witness): the concrete normalization results, and idempotence on a
concrete one-column table. -/
theorem claim_C8_witness :
    getCol (limpiar_y_convertir
        [("m", [Val.str "1,234.8", Val.str "  42 ", Val.str "N/A"])] ["m"])
        "m" =
      [Val.num (6174/5), Val.num 42, Val.na] ∧
    limpiar_y_convertir (limpiar_y_convertir
        [("m", [Val.str "1,234.8", Val.str "  42 ", Val.str "N/A"])] ["m"])
        ["m"] =
      limpiar_y_convertir
        [("m", [Val.str "1,234.8", Val.str "  42 ", Val.str "N/A"])] ["m"] := by
  have h := claim_C8
    [("m", [Val.str "1,234.8", Val.str "  42 ", Val.str "N/A"])] ["m"]
    (by decide) (by decide) (by decide)
  exact ⟨h.1, h.2⟩

/-! ## Claim C1 -/

theorem collapseCell_isStr (cats : List String) (v : Val) :
    ∃ s, collapseCell cats v = Val.str s := by
  unfold collapseCell
  split
  · rename_i hb
    cases v with
    | str s => exact ⟨s, rfl⟩
    | num q => simp [isinVal] at hb
    | na => simp [isinVal] at hb
  · exact ⟨"OTROS", rfl⟩

/-- C1 (counterexample): with preserve-list `["X", "Y"]` and reference
label `"OTHER"`, the source rewrites the unpreserved values `"Z"`, `"W"`
to the literal `'OTROS'` (line 133 hardcodes `'OTROS'` and ignores the
`referencia` parameter), so an indicator column `cat_OTROS` is produced in
addition to `cat_X` and `cat_Y` — the produced indicator set is not
`{X, Y}` as claimed, and the rewritten values are not `"OTHER"`. -/
theorem claim_C1_counterexample :
    names (dummificar_var_categorica
        [("cat", [Val.str "X", Val.str "Z", Val.str "Y", Val.str "W"])]
        "cat" ["X", "Y"] "OTHER") = ["cat_X", "cat_OTROS", "cat_Y"] ∧
    names (dummificar_var_categorica
        [("cat", [Val.str "X", Val.str "Z", Val.str "Y", Val.str "W"])]
        "cat" ["X", "Y"] "OTHER") ≠ ["cat_X", "cat_Y"] ∧
    getCol (dummificar_var_categorica
        [("cat", [Val.str "X", Val.str "Z", Val.str "Y", Val.str "W"])]
        "cat" ["X", "Y"] "OTHER") "cat_OTROS" =
      [Val.num 0, Val.num 1, Val.num 0, Val.num 1] := by
  refine ⟨rfl, by decide, rfl⟩

/-- Closed form of `dummificar_var_categorica`: the result is the input
with the target column dropped, followed by one appended indicator column
per distinct collapsed value other than the reference label, each an
index-preserving pointwise map of the original target column. -/
theorem dummificar_eq (t : Table) (columna : String) (cats : List String)
    (referencia : String)
    (hmem : columna ∈ names t)
    (hfresh : ∀ cat ∈ (uniqueVals ((getCol t columna).map
        (collapseCell cats))).filter (fun c => c != Val.str referencia),
      (columna ++ "_" ++ valName cat) ∉ names t) :
    dummificar_var_categorica t columna cats referencia =
      dropColumn t columna ++
        ((uniqueVals ((getCol t columna).map (collapseCell cats))).filter
            (fun c => c != Val.str referencia)).map
          (fun cat => (columna ++ "_" ++ valName cat,
            ((getCol t columna).map (collapseCell cats)).map
              (fun v => if v = cat then Val.num 1 else Val.num 0))) := by
  have hbase : names (setCol t columna
      ((getCol t columna).map (collapseCell cats))) = names t :=
    names_setCol_of_mem _ hmem
  have hstr : ∀ v ∈ (uniqueVals ((getCol t columna).map
      (collapseCell cats))).filter (fun c => c != Val.str referencia),
      ∃ s, v = Val.str s := by
    intro v hv
    rcases List.mem_map.mp (uniqueVals_sub (List.mem_of_mem_filter hv))
      with ⟨w, _, hw⟩
    rcases collapseCell_isStr cats w with ⟨s, hs⟩
    exact ⟨s, by rw [← hw, hs]⟩
  have hnd : ((uniqueVals ((getCol t columna).map (collapseCell cats))).filter
      (fun c => c != Val.str referencia)).Nodup :=
    (uniqueVals_nodup _).filter _
  have hpw : ((uniqueVals ((getCol t columna).map (collapseCell cats))).filter
      (fun c => c != Val.str referencia)).Pairwise
      (fun a b => columna ++ "_" ++ valName a ≠ columna ++ "_" ++ valName b) := by
    refine List.Pairwise.imp_of_mem ?_ hnd
    intro a b ha hb hne he
    rcases hstr a ha with ⟨sa, rfl⟩
    rcases hstr b hb with ⟨sb, rfl⟩
    exact hne (congrArg Val.str (string_append_left_cancel he))
  have hfresh2 : ∀ cat ∈ (uniqueVals ((getCol t columna).map
      (collapseCell cats))).filter (fun c => c != Val.str referencia),
      (fun cat => columna ++ "_" ++ valName cat) cat ∉
        names (setCol t columna ((getCol t columna).map (collapseCell cats))) := by
    intro cat hc
    rw [hbase]
    exact hfresh cat hc
  have hfold := foldl_setCol_fresh
    (fun cat => columna ++ "_" ++ valName cat)
    (fun cat => ((getCol t columna).map (collapseCell cats)).map
      (fun v => if v = cat then Val.num 1 else Val.num 0))
    ((uniqueVals ((getCol t columna).map (collapseCell cats))).filter
      (fun c => c != Val.str referencia))
    (setCol t columna ((getCol t columna).map (collapseCell cats)))
    hfresh2 hpw
  calc
    dummificar_var_categorica t columna cats referencia
        = dropColumn
            (((uniqueVals ((getCol t columna).map (collapseCell cats))).filter
                (fun c => c != Val.str referencia)).foldl
              (fun acc cat => setCol acc (columna ++ "_" ++ valName cat)
                (((getCol t columna).map (collapseCell cats)).map
                  (fun v => if v = cat then Val.num 1 else Val.num 0)))
              (setCol t columna ((getCol t columna).map (collapseCell cats))))
            columna := rfl
    _ = dropColumn
          ((setCol t columna ((getCol t columna).map (collapseCell cats))) ++
            ((uniqueVals ((getCol t columna).map (collapseCell cats))).filter
                (fun c => c != Val.str referencia)).map
              (fun cat => (columna ++ "_" ++ valName cat,
                ((getCol t columna).map (collapseCell cats)).map
                  (fun v => if v = cat then Val.num 1 else Val.num 0))))
          columna := by rw [hfold]
    _ = dropColumn (setCol t columna
            ((getCol t columna).map (collapseCell cats))) columna ++
          dropColumn
            (((uniqueVals ((getCol t columna).map (collapseCell cats))).filter
                (fun c => c != Val.str referencia)).map
              (fun cat => (columna ++ "_" ++ valName cat,
                ((getCol t columna).map (collapseCell cats)).map
                  (fun v => if v = cat then Val.num 1 else Val.num 0))))
            columna := dropColumn_append _ _ _
    _ = dropColumn t columna ++
          dropColumn
            (((uniqueVals ((getCol t columna).map (collapseCell cats))).filter
                (fun c => c != Val.str referencia)).map
              (fun cat => (columna ++ "_" ++ valName cat,
                ((getCol t columna).map (collapseCell cats)).map
                  (fun v => if v = cat then Val.num 1 else Val.num 0))))
            columna := by rw [dropColumn_setCol_self]
    _ = dropColumn t columna ++
          ((uniqueVals ((getCol t columna).map (collapseCell cats))).filter
              (fun c => c != Val.str referencia)).map
            (fun cat => (columna ++ "_" ++ valName cat,
              ((getCol t columna).map (collapseCell cats)).map
                (fun v => if v = cat then Val.num 1 else Val.num 0))) := by
        have hmap : dropColumn
            (((uniqueVals ((getCol t columna).map (collapseCell cats))).filter
                (fun c => c != Val.str referencia)).map
              (fun cat => (columna ++ "_" ++ valName cat,
                ((getCol t columna).map (collapseCell cats)).map
                  (fun v => if v = cat then Val.num 1 else Val.num 0))))
            columna =
            ((uniqueVals ((getCol t columna).map (collapseCell cats))).filter
                (fun c => c != Val.str referencia)).map
              (fun cat => (columna ++ "_" ++ valName cat,
                ((getCol t columna).map (collapseCell cats)).map
                  (fun v => if v = cat then Val.num 1 else Val.num 0))) := by
          apply dropColumn_eq_self
          intro p hp
          rcases List.mem_map.mp hp with ⟨cat, _, hcat⟩
          rw [← hcat]
          exact dname_ne_base columna (valName cat)
        rw [hmap]

/-- C1 (amended): every value of the target column not in the
preserve-list is rewritten to the literal label `'OTROS'` (not to the
given reference label — `collapseCell` hardcodes `'OTROS'`); one indicator
column named `columna ++ "_" ++ cat` is then created per distinct value
present after the rewrite, except the reference label itself; the original
column is dropped and the other columns are untouched.  (With the default
`referencia = "OTROS"` this coincides with the original claim.) -/
theorem claim_C1 (t : Table) (columna : String) (cats : List String)
    (referencia : String)
    (hmem : columna ∈ names t)
    (hfresh : ∀ cat ∈ (uniqueVals ((getCol t columna).map
        (collapseCell cats))).filter (fun c => c != Val.str referencia),
      (columna ++ "_" ++ valName cat) ∉ names t) :
    dummificar_var_categorica t columna cats referencia =
      dropColumn t columna ++
        ((uniqueVals ((getCol t columna).map (collapseCell cats))).filter
            (fun c => c != Val.str referencia)).map
          (fun cat => (columna ++ "_" ++ valName cat,
            ((getCol t columna).map (collapseCell cats)).map
              (fun v => if v = cat then Val.num 1 else Val.num 0))) :=
  dummificar_eq t columna cats referencia hmem hfresh

/-- C1 (witness): the spec's own example, with the corrected expected
output: indicators for `X`, `OTROS` and `Y`, the `OTROS` indicator marking
the rewritten rows `Z` and `W`, and the original column dropped. -/
theorem claim_C1_witness :
    dummificar_var_categorica
        [("cat", [Val.str "X", Val.str "Z", Val.str "Y", Val.str "W"])]
        "cat" ["X", "Y"] "OTHER" =
      [("cat_X", [Val.num 1, Val.num 0, Val.num 0, Val.num 0]),
       ("cat_OTROS", [Val.num 0, Val.num 1, Val.num 0, Val.num 1]),
       ("cat_Y", [Val.num 0, Val.num 0, Val.num 1, Val.num 0])] := by
  have h := claim_C1
    [("cat", [Val.str "X", Val.str "Z", Val.str "Y", Val.str "W"])]
    "cat" ["X", "Y"] "OTHER" (by decide) (by decide)
  exact h.trans (by decide)

/-! ## Claims C4 and C5 (the scorer) -/

/-- C4: when the artifact's scoring call raises, `ejecutar_modelo` catches
the exception (the embedding is a total function: no failure leaves the
scorer) and returns the input table unchanged — in particular it gains no
`PROB_FRAUDE`/`PRED_FRAUDE` column and no row value is altered. -/
theorem claim_C4 (modelo : Table → Except String (List ℚ)) (df : Table)
    (umbral : ℚ) (e : String) (herr : modelo df = Except.error e) :
    ejecutar_modelo modelo df umbral = df ∧
    ("PROB_FRAUDE" ∉ names df →
      "PROB_FRAUDE" ∉ names (ejecutar_modelo modelo df umbral)) ∧
    ("PRED_FRAUDE" ∉ names df →
      "PRED_FRAUDE" ∉ names (ejecutar_modelo modelo df umbral)) := by
  have h : ejecutar_modelo modelo df umbral = df := by
    unfold ejecutar_modelo
    rw [herr]
  refine ⟨h, ?_, ?_⟩
  · intro hp
    rw [h]
    exact hp
  · intro hp
    rw [h]
    exact hp

/-- C4 (witness): a concrete failing artifact on a concrete table. -/
theorem claim_C4_witness :
    ejecutar_modelo (fun _ => Except.error "columnas no coinciden")
        [("A", [Val.num 1, Val.num 2])] 0.565 =
      [("A", [Val.num 1, Val.num 2])] ∧
    "PROB_FRAUDE" ∉ names (ejecutar_modelo
        (fun _ => Except.error "columnas no coinciden")
        [("A", [Val.num 1, Val.num 2])] 0.565) := by
  have h := claim_C4 (fun _ => Except.error "columnas no coinciden")
    [("A", [Val.num 1, Val.num 2])] 0.565 "columnas no coinciden" rfl
  exact ⟨h.1, h.2.1 (by decide)⟩

/-- C5: when the artifact scores without raising, the result is the input
table with exactly the two columns `PROB_FRAUDE` (the artifact's
positive-class probability per row) and `PRED_FRAUDE` appended at the end,
where `PRED_FRAUDE` is `1` iff the probability is `>= umbral` and `0`
otherwise; moreover, at the default threshold `0.565`, probability `0.6`
yields prediction `1` and probability `0.5` yields `0`. -/
theorem claim_C5 (modelo : Table → Except String (List ℚ)) (df : Table)
    (umbral : ℚ) (probs : List ℚ) (n : ℕ)
    (hok : modelo df = Except.ok probs)
    (hwf : WF df n) (hlen : probs.length = n)
    (h1 : "PROB_FRAUDE" ∉ names df) (h2 : "PRED_FRAUDE" ∉ names df) :
    ejecutar_modelo modelo df umbral =
      df ++ [("PROB_FRAUDE", probs.map Val.num),
             ("PRED_FRAUDE", probs.map (fun p =>
               if umbral ≤ p then Val.num 1 else Val.num 0))] ∧
    predLabel umbralDefecto (Val.num (6/10)) = Val.num 1 ∧
    predLabel umbralDefecto (Val.num (5/10)) = Val.num 0 := by
  refine ⟨?_, ?_, ?_⟩
  · have e1 : setCol df "PROB_FRAUDE" (probs.map Val.num) =
        df ++ [("PROB_FRAUDE", probs.map Val.num)] := setCol_eq_append _ h1
    have hni : "PRED_FRAUDE" ∉ names (df ++ [("PROB_FRAUDE", probs.map Val.num)]) := by
      rw [names_append, List.mem_append]
      rintro (h | h)
      · exact h2 h
      · simp [names] at h
    have e2 : getCol (df ++ [("PROB_FRAUDE", probs.map Val.num)]) "PROB_FRAUDE" =
        probs.map Val.num := by
      rw [getCol_append_right _ h1, getCol_cons]
      rw [if_pos rfl]
    have e3 : (probs.map Val.num).map (predLabel umbral) =
        probs.map (fun p => if umbral ≤ p then Val.num 1 else Val.num 0) := by
      rw [List.map_map]
      refine List.map_congr_left ?_
      intro p _
      show predLabel umbral (Val.num p) = _
      unfold predLabel valGe
      by_cases hle : umbral ≤ p
      · rw [if_pos (by exact decide_eq_true hle), if_pos hle]
      · rw [if_neg (by simpa using hle), if_neg hle]
    show (ejecutar_modelo modelo df umbral = _)
    unfold ejecutar_modelo
    rw [hok]
    show setCol (setCol df "PROB_FRAUDE" (probs.map Val.num)) "PRED_FRAUDE"
        ((getCol (setCol df "PROB_FRAUDE" (probs.map Val.num)) "PROB_FRAUDE").map
          (predLabel umbral)) = _
    rw [e1, e2, e3, setCol_eq_append _ hni, List.append_assoc]
    rfl
  · have h6 : (0.565 : ℚ) ≤ 6/10 := by norm_num
    unfold predLabel valGe umbralDefecto
    rw [if_pos (decide_eq_true h6)]
  · have h5 : ¬ (0.565 : ℚ) ≤ 5/10 := by norm_num
    unfold predLabel valGe umbralDefecto
    rw [if_neg (by simpa using h5)]

/-- C5 (witness): an artifact returning probabilities `[0.6, 0.5]` on a
two-row table, at the default threshold. -/
theorem claim_C5_witness :
    ejecutar_modelo (fun _ => Except.ok [6/10, 5/10])
        [("A", [Val.num 1, Val.num 2])] umbralDefecto =
      [("A", [Val.num 1, Val.num 2])] ++
        [("PROB_FRAUDE", ([(6 : ℚ)/10, 5/10]).map Val.num),
         ("PRED_FRAUDE", ([(6 : ℚ)/10, 5/10]).map (fun p =>
           if umbralDefecto ≤ p then Val.num 1 else Val.num 0))] ∧
    predLabel umbralDefecto (Val.num (6/10)) = Val.num 1 ∧
    predLabel umbralDefecto (Val.num (5/10)) = Val.num 0 :=
  claim_C5 (fun _ => Except.ok [6/10, 5/10]) [("A", [Val.num 1, Val.num 2])]
    umbralDefecto [6/10, 5/10] 2 rfl (by decide) rfl (by decide) (by decide)

/-! ## Claim C9: row preservation -/

theorem limpiarCol_length (col : List Val) :
    (limpiarCol col).length = col.length := by
  simp [limpiarCol]

theorem replaceNegCol_length (col : List Val) :
    (replaceNegCol col).length = col.length := by
  simp [replaceNegCol]

theorem fillNaCol_length (col : List Val) :
    (fillNaCol col).length = col.length := by
  simp [fillNaCol]

theorem sqrtCol_length (sq : ℚ → ℚ) (col : List Val) :
    (sqrtCol sq col).length = col.length := by
  simp [sqrtCol]

theorem binCol_length (corte : ℚ) (col : List Val) :
    (binCol corte col).length = col.length := by
  simp [binCol]

theorem foldl_setCol_WF {γ : Type} (dn : γ → String) (dv : γ → List Val) :
    ∀ (l : List γ) (t : Table) (n : ℕ), WF t n →
      (∀ a ∈ l, (dv a).length = n) →
      WF (l.foldl (fun t a => setCol t (dn a) (dv a)) t) n := by
  intro l
  induction l with
  | nil =>
    intro t n hw _
    exact hw
  | cons a as ih =>
    intro t n hw hlen
    rw [List.foldl_cons]
    exact ih _ n (WF_setCol hw (hlen a (List.mem_cons_self _ _)))
      (fun b hb => hlen b (List.mem_cons_of_mem _ hb))

theorem binStep_WF (corte : ℚ) (c : String) {t : Table} {n : ℕ}
    (hw : WF t n) : WF (binStep corte t c) n := by
  unfold binStep
  split
  · rename_i hmem
    exact WF_setCol hw (by rw [binCol_length, getCol_length hw hmem])
  · exact hw

theorem foldl_binStep_WF (corte : ℚ) :
    ∀ (l : List String) {t : Table} {n : ℕ}, WF t n →
      WF (l.foldl (binStep corte) t) n := by
  intro l
  induction l with
  | nil =>
    intro t n hw
    exact hw
  | cons a as ih =>
    intro t n hw
    rw [List.foldl_cons]
    exact ih (binStep_WF corte a hw)

theorem limpiarCol_eq_map (col : List Val) :
    limpiarCol col = col.map limpiarCell := rfl

theorem replaceNegCol_eq_map (col : List Val) :
    replaceNegCol col = col.map (fun v =>
      if valLt v 0 then valOfOpt (medianCol col) else v) := rfl

theorem fillNaCol_eq_map (col : List Val) :
    fillNaCol col = col.map (fun v =>
      match v with
      | Val.na => valOfOpt (medianCol col)
      | w => w) := rfl

theorem sqrtCol_eq_map (sq : ℚ → ℚ) (col : List Val) :
    sqrtCol sq col = col.map (fun v =>
      match v with
      | Val.num x => if 0 ≤ x then Val.num (sq x) else Val.na
      | _ => Val.na) := rfl

theorem binStep_names (corte : ℚ) (t : Table) (c : String) :
    names (binStep corte t c) = names t := by
  unfold binStep
  split
  · rename_i hmem
    exact names_setCol_of_mem _ hmem
  · rfl

theorem foldl_binStep_names (corte : ℚ) :
    ∀ (l : List String) (t : Table),
      names (l.foldl (binStep corte) t) = names t := by
  intro l
  induction l with
  | nil =>
    intro t
    rfl
  | cons a as ih =>
    intro t
    rw [List.foldl_cons, ih, binStep_names]

theorem binStep_getCol (corte : ℚ) (t : Table) (a c : String) :
    getCol (binStep corte t a) c =
      if c = a ∧ a ∈ names t then binCol corte (getCol t a)
      else getCol t c := by
  unfold binStep
  split
  · rename_i hmem
    by_cases hc : c = a
    · subst hc
      rw [getCol_setCol_self, if_pos ⟨rfl, hmem⟩]
    · rw [getCol_setCol_ne _ _ hc, if_neg (fun h => hc h.1)]
  · rename_i hmem
    rw [if_neg (fun h => hmem h.2)]

theorem foldl_binStep_getCol (corte : ℚ) :
    ∀ (l : List String), l.Nodup → ∀ (t : Table) (c : String),
      getCol (l.foldl (binStep corte) t) c =
        if c ∈ l ∧ c ∈ names t then binCol corte (getCol t c)
        else getCol t c := by
  intro l
  induction l with
  | nil =>
    intro _ t c
    simp
  | cons a as ih =>
    intro hnd t c
    rw [List.nodup_cons] at hnd
    rw [List.foldl_cons, ih hnd.2, binStep_names, binStep_getCol]
    by_cases hmem : c ∈ names t
    · by_cases hca : c = a
      · subst hca
        rw [if_pos (⟨rfl, hmem⟩ : c = c ∧ c ∈ names t),
          if_neg (fun h : c ∈ as ∧ c ∈ names t => hnd.1 h.1),
          if_pos (⟨List.mem_cons_self _ _, hmem⟩ : c ∈ c :: as ∧ c ∈ names t)]
      · rw [if_neg (fun h : c = a ∧ a ∈ names t => hca h.1)]
        by_cases hcas : c ∈ as
        · rw [if_pos (⟨hcas, hmem⟩ : c ∈ as ∧ c ∈ names t),
            if_pos (⟨List.mem_cons_of_mem _ hcas, hmem⟩ :
              c ∈ a :: as ∧ c ∈ names t)]
        · rw [if_neg (fun h : c ∈ as ∧ c ∈ names t => hcas h.1),
            if_neg (fun h : c ∈ a :: as ∧ c ∈ names t => by
              rcases List.mem_cons.mp h.1 with h' | h'
              · exact hca h'
              · exact hcas h')]
    · rw [if_neg (fun h : c ∈ as ∧ c ∈ names t => hmem h.2)]
      by_cases hca : c = a
      · subst hca
        rw [if_neg (fun h : c = c ∧ c ∈ names t => hmem h.2),
          if_neg (fun h : c ∈ c :: as ∧ c ∈ names t => hmem h.2)]
      · rw [if_neg (fun h : c = a ∧ a ∈ names t => hca h.1),
          if_neg (fun h : c ∈ a :: as ∧ c ∈ names t => hmem h.2)]

/-- C9: every stage returns a table with exactly the same rows, in the
same order, as its input.  Per stage: the row count `n` is preserved, and
every output column is either an unchanged input column, or an
index-preserving pointwise `List.map` image of a designated input column
(the same-named one; the collapsed target column for the indicator
columns; the probability list, one entry per row, for the score columns).
Row `i` of the output is therefore computed from row `i` of the input —
no row is added, dropped, or reordered by any of the eight stages. -/
theorem claim_C9 (n : ℕ) (t : Table)
    (lista cols1 cols2 cols3 vars0 vars1 vsqrt : List String)
    (columna : String) (cats : List String) (referencia : String)
    (sq : ℚ → ℚ) (modelo : Table → Except String (List ℚ)) (umbral : ℚ)
    (hwf : WF t n)
    (hnd1 : cols1.Nodup) (h1 : ∀ c ∈ cols1, c ∈ names t)
    (hnd2 : cols2.Nodup) (h2 : ∀ c ∈ cols2, c ∈ names t)
    (hnd3 : cols3.Nodup) (h3 : ∀ c ∈ cols3, c ∈ names t)
    (hnd4 : vsqrt.Nodup) (h4 : ∀ c ∈ vsqrt, c ∈ names t)
    (hnd5 : vars0.Nodup) (hnd6 : vars1.Nodup)
    (h5 : columna ∈ names t)
    (hfresh : ∀ cat ∈ (uniqueVals ((getCol t columna).map
        (collapseCell cats))).filter (fun c => c != Val.str referencia),
      (columna ++ "_" ++ valName cat) ∉ names t) :
    (∀ t2, seleccion_variables t lista = Except.ok t2 →
      t2 = lista.map (fun c => (c, getCol t c)) ∧ WF t2 n) ∧
    (WF (limpiar_y_convertir t cols1) n ∧
      names (limpiar_y_convertir t cols1) = names t ∧
      ∀ c, getCol (limpiar_y_convertir t cols1) c =
        if c ∈ cols1 then (getCol t c).map limpiarCell else getCol t c) ∧
    (WF (reemplazar_negativos_por_mediana t cols2) n ∧
      names (reemplazar_negativos_por_mediana t cols2) = names t ∧
      ∀ c, getCol (reemplazar_negativos_por_mediana t cols2) c =
        if c ∈ cols2 then
          (getCol t c).map (fun v =>
            if valLt v 0 then valOfOpt (medianCol (getCol t c)) else v)
        else getCol t c) ∧
    (WF (imputar_nulos_por_mediana t cols3) n ∧
      names (imputar_nulos_por_mediana t cols3) = names t ∧
      ∀ c, getCol (imputar_nulos_por_mediana t cols3) c =
        if c ∈ cols3 then
          (getCol t c).map (fun v =>
            match v with
            | Val.na => valOfOpt (medianCol (getCol t c))
            | w => w)
        else getCol t c) ∧
    (WF (dummificar_var_categorica t columna cats referencia) n ∧
      dummificar_var_categorica t columna cats referencia =
        dropColumn t columna ++
          ((uniqueVals ((getCol t columna).map (collapseCell cats))).filter
              (fun c => c != Val.str referencia)).map
            (fun cat => (columna ++ "_" ++ valName cat,
              ((getCol t columna).map (collapseCell cats)).map
                (fun v => if v = cat then Val.num 1 else Val.num 0)))) ∧
    (WF (binarizar_variables t vars0 vars1) n ∧
      names (binarizar_variables t vars0 vars1) = names t ∧
      ∀ c, getCol (binarizar_variables t vars0 vars1) c =
        if c ∈ vars1 ∧ c ∈ names t then
          binCol 1 (if c ∈ vars0 ∧ c ∈ names t then binCol 0 (getCol t c)
            else getCol t c)
        else if c ∈ vars0 ∧ c ∈ names t then binCol 0 (getCol t c)
        else getCol t c) ∧
    (WF (transformacion_raiz_cuadrada sq t vsqrt) n ∧
      names (transformacion_raiz_cuadrada sq t vsqrt) = names t ∧
      ∀ c, getCol (transformacion_raiz_cuadrada sq t vsqrt) c =
        if c ∈ vsqrt then
          (getCol t c).map (fun v =>
            match v with
            | Val.num x => if 0 ≤ x then Val.num (sq x) else Val.na
            | _ => Val.na)
        else getCol t c) ∧
    (∀ e, modelo t = Except.error e →
      ejecutar_modelo modelo t umbral = t) ∧
    (∀ probs, modelo t = Except.ok probs → probs.length = n →
      WF (ejecutar_modelo modelo t umbral) n ∧
      getCol (ejecutar_modelo modelo t umbral) "PROB_FRAUDE" =
        probs.map Val.num ∧
      getCol (ejecutar_modelo modelo t umbral) "PRED_FRAUDE" =
        (probs.map Val.num).map (predLabel umbral) ∧
      ∀ c, c ≠ "PROB_FRAUDE" → c ≠ "PRED_FRAUDE" →
        getCol (ejecutar_modelo modelo t umbral) c = getCol t c) := by
  refine ⟨?_, ?_, ?_, ?_, ?_, ?_, ?_, ?_, ?_⟩
  · intro t2 hok
    obtain ⟨hall, ht2⟩ := seleccion_ok_inv hok
    refine ⟨ht2, ?_⟩
    rw [ht2]
    intro p hp
    rcases List.mem_map.mp hp with ⟨c, hc, hpc⟩
    rw [← hpc]
    exact getCol_length hwf (hall c hc)
  · refine ⟨applyCols_WF limpiarCol limpiarCol_length cols1 t n hwf h1,
      applyCols_names limpiarCol cols1 t h1, ?_⟩
    intro c
    rw [show limpiar_y_convertir t cols1 = applyCols limpiarCol t cols1
      from rfl, applyCols_getCol limpiarCol cols1 hnd1 t c, limpiarCol_eq_map]
  · refine ⟨applyCols_WF replaceNegCol replaceNegCol_length cols2 t n hwf h2,
      applyCols_names replaceNegCol cols2 t h2, ?_⟩
    intro c
    rw [show reemplazar_negativos_por_mediana t cols2 =
        applyCols replaceNegCol t cols2 from rfl,
      applyCols_getCol replaceNegCol cols2 hnd2 t c, replaceNegCol_eq_map]
  · refine ⟨applyCols_WF fillNaCol fillNaCol_length cols3 t n hwf h3,
      applyCols_names fillNaCol cols3 t h3, ?_⟩
    intro c
    rw [show imputar_nulos_por_mediana t cols3 =
        applyCols fillNaCol t cols3 from rfl,
      applyCols_getCol fillNaCol cols3 hnd3 t c, fillNaCol_eq_map]
  · refine ⟨?_, dummificar_eq t columna cats referencia h5 hfresh⟩
    have hrew : ((getCol t columna).map (collapseCell cats)).length = n := by
      rw [List.length_map]
      exact getCol_length hwf h5
    have hbase : WF (setCol t columna
        ((getCol t columna).map (collapseCell cats))) n :=
      WF_setCol hwf hrew
    have hfold : WF
        (((uniqueVals ((getCol t columna).map (collapseCell cats))).filter
            (fun c => c != Val.str referencia)).foldl
          (fun acc cat => setCol acc (columna ++ "_" ++ valName cat)
            (((getCol t columna).map (collapseCell cats)).map
              (fun v => if v = cat then Val.num 1 else Val.num 0)))
          (setCol t columna ((getCol t columna).map (collapseCell cats)))) n :=
      foldl_setCol_WF _ _ _ _ n hbase
        (fun cat _ => by rw [List.length_map]; exact hrew)
    show WF (dropColumn _ columna) n
    exact WF_filter hfold _
  · refine ⟨foldl_binStep_WF 1 vars1 (foldl_binStep_WF 0 vars0 hwf), ?_, ?_⟩
    · show names (vars1.foldl (binStep 1) (vars0.foldl (binStep 0) t)) = names t
      rw [foldl_binStep_names, foldl_binStep_names]
    · intro c
      show getCol (vars1.foldl (binStep 1) (vars0.foldl (binStep 0) t)) c = _
      rw [foldl_binStep_getCol 1 vars1 hnd6, foldl_binStep_names,
        foldl_binStep_getCol 0 vars0 hnd5]
  · refine ⟨applyCols_WF (sqrtCol sq) (sqrtCol_length sq) vsqrt t n hwf h4,
      applyCols_names (sqrtCol sq) vsqrt t h4, ?_⟩
    intro c
    rw [show transformacion_raiz_cuadrada sq t vsqrt =
        applyCols (sqrtCol sq) t vsqrt from rfl,
      applyCols_getCol (sqrtCol sq) vsqrt hnd4 t c, sqrtCol_eq_map]
  · intro e herr
    unfold ejecutar_modelo
    rw [herr]
  · intro probs hok hlen
    have hres : ejecutar_modelo modelo t umbral =
        setCol (setCol t "PROB_FRAUDE" (probs.map Val.num)) "PRED_FRAUDE"
          ((getCol (setCol t "PROB_FRAUDE" (probs.map Val.num))
            "PROB_FRAUDE").map (predLabel umbral)) := by
      unfold ejecutar_modelo
      rw [hok]
    have hne : ("PROB_FRAUDE" : String) ≠ "PRED_FRAUDE" := by decide
    refine ⟨?_, ?_, ?_, ?_⟩
    · rw [hres]
      have hp1 : WF (setCol t "PROB_FRAUDE" (probs.map Val.num)) n :=
        WF_setCol hwf (by rw [List.length_map]; exact hlen)
      refine WF_setCol hp1 ?_
      rw [List.length_map, getCol_setCol_self, List.length_map]
      exact hlen
    · rw [hres, getCol_setCol_ne _ _ hne, getCol_setCol_self]
    · rw [hres, getCol_setCol_self, getCol_setCol_self]
    · intro c hcp hcd
      rw [hres, getCol_setCol_ne _ _ hcd, getCol_setCol_ne _ _ hcp]

/-- C9 (witness): a concrete two-row table through the stages: row counts
preserved, an unlisted column untouched by the normalizer, the collapser's
closed pointwise form, and the scorer's appended probability column next
to an unchanged original column. -/
theorem claim_C9_witness :
    WF (limpiar_y_convertir
      [("a", [Val.num 1, Val.num (-2)]), ("b", [Val.str "x", Val.na])]
      ["a"]) 2 ∧
    getCol (limpiar_y_convertir
      [("a", [Val.num 1, Val.num (-2)]), ("b", [Val.str "x", Val.na])]
      ["a"]) "b" =
      getCol [("a", [Val.num 1, Val.num (-2)]), ("b", [Val.str "x", Val.na])]
        "b" ∧
    dummificar_var_categorica
      [("a", [Val.num 1, Val.num (-2)]), ("b", [Val.str "x", Val.na])]
      "b" ["x"] "OTROS" =
      dropColumn
        [("a", [Val.num 1, Val.num (-2)]), ("b", [Val.str "x", Val.na])]
        "b" ++ [("b_x", [Val.num 1, Val.num 0])] ∧
    WF (binarizar_variables
      [("a", [Val.num 1, Val.num (-2)]), ("b", [Val.str "x", Val.na])]
      ["a", "zz"] []) 2 ∧
    getCol (ejecutar_modelo (fun _ => Except.ok [1, 0])
      [("a", [Val.num 1, Val.num (-2)]), ("b", [Val.str "x", Val.na])]
      2) "PROB_FRAUDE" = [Val.num 1, Val.num 0] ∧
    getCol (ejecutar_modelo (fun _ => Except.ok [1, 0])
      [("a", [Val.num 1, Val.num (-2)]), ("b", [Val.str "x", Val.na])]
      2) "a" =
      getCol [("a", [Val.num 1, Val.num (-2)]), ("b", [Val.str "x", Val.na])]
        "a" := by
  have h := claim_C9 2
    [("a", [Val.num 1, Val.num (-2)]), ("b", [Val.str "x", Val.na])]
    ["a"] ["a"] ["a"] ["a"] ["a", "zz"] [] ["a"] "b" ["x"] "OTROS"
    (fun q => q) (fun _ => Except.ok [1, 0]) 2
    (by decide) (by decide) (by decide) (by decide) (by decide) (by decide)
    (by decide) (by decide) (by decide) (by decide) (by decide) (by decide)
    (by decide)
  obtain ⟨hs, hlim, hrem, himp, hdum, hbin, hsq, herr, hok⟩ := h
  obtain ⟨hok1, hok2, hok3, hok4⟩ := hok [1, 0] rfl rfl
  exact ⟨hlim.1, (hlim.2.2 "b").trans (by decide), hdum.2.trans (by decide),
    hbin.1, hok2.trans (by decide), hok4 "a" (by decide) (by decide)⟩

/-! ## Claim C10: copy semantics on the object store -/

theorem readRef_append_lt {s : Store} {i : ℕ} (t : Table)
    (h : i < s.length) : readRef (s ++ [t]) i = readRef s i := by
  induction s generalizing i with
  | nil => cases h
  | cons a as ih =>
    cases i with
    | zero => rfl
    | succ j => exact ih (Nat.lt_of_succ_lt_succ h)

theorem readRef_append_self (s : Store) (t : Table) :
    readRef (s ++ [t]) s.length = t := by
  induction s with
  | nil => rfl
  | cons a as ih => exact ih

theorem length_writeRef (s : Store) (r : ℕ) (t : Table) :
    (writeRef s r t).length = s.length := List.length_set s r t

theorem readRef_writeRef_self {s : Store} {r : ℕ} (t : Table)
    (h : r < s.length) : readRef (writeRef s r t) r = t := by
  induction s generalizing r with
  | nil => cases h
  | cons a as ih =>
    cases r with
    | zero => rfl
    | succ j => exact ih (Nat.lt_of_succ_lt_succ h)

theorem readRef_writeRef_ne (s : Store) {r i : ℕ} (t : Table)
    (h : i ≠ r) : readRef (writeRef s r t) i = readRef s i := by
  induction s generalizing r i with
  | nil => rfl
  | cons a as ih =>
    cases r with
    | zero =>
      cases i with
      | zero => exact absurd rfl h
      | succ j => rfl
    | succ k =>
      cases i with
      | zero => rfl
      | succ j => exact ih (fun he => h (congrArg Nat.succ he))

theorem foldl_writeRef {γ : Type} (g : Table → γ → Table) (r1 : ℕ) :
    ∀ (l : List γ) (s : Store), r1 < s.length →
      ((l.foldl (fun st a => writeRef st r1 (g (readRef st r1) a)) s).length
          = s.length) ∧
      (readRef (l.foldl (fun st a => writeRef st r1 (g (readRef st r1) a)) s) r1
          = l.foldl g (readRef s r1)) ∧
      ∀ i, i ≠ r1 →
        readRef (l.foldl (fun st a => writeRef st r1 (g (readRef st r1) a)) s) i
          = readRef s i := by
  intro l
  induction l with
  | nil =>
    intro s _
    exact ⟨rfl, rfl, fun _ _ => rfl⟩
  | cons a as ih =>
    intro s h
    have h' : r1 < (writeRef s r1 (g (readRef s r1) a)).length := by
      rw [length_writeRef]
      exact h
    obtain ⟨ihl, ihr, ihf⟩ := ih (writeRef s r1 (g (readRef s r1) a)) h'
    refine ⟨?_, ?_, ?_⟩
    · rw [List.foldl_cons, ihl, length_writeRef]
    · rw [List.foldl_cons, ihr, readRef_writeRef_self _ h, List.foldl_cons]
    · intro i hi
      rw [List.foldl_cons, ihf i hi, readRef_writeRef_ne _ _ hi]

/-- C10: the collapser, the binarizer, the root transform and the scorer
all start with `df.copy()` (and `drop` allocates a further new frame), so
on the object store each returns a reference distinct from every
pre-existing one, every pre-existing object — in particular the caller's
table — is left untouched, and the object behind the returned reference
holds exactly the value computed by the corresponding pure function. -/
theorem claim_C10 (s : Store) (r : ℕ) (columna : String)
    (cats : List String) (referencia : String)
    (v0 v1 : List String) (sq : ℚ → ℚ) (vars : List String)
    (modelo : Table → Except String (List ℚ)) (umbral : ℚ) :
    ((∀ i, i < s.length →
        readRef (dummificarM s r columna cats referencia).1 i = readRef s i) ∧
      s.length ≤ (dummificarM s r columna cats referencia).2 ∧
      readRef (dummificarM s r columna cats referencia).1
          (dummificarM s r columna cats referencia).2 =
        dummificar_var_categorica (readRef s r) columna cats referencia) ∧
    ((∀ i, i < s.length →
        readRef (binarizarM s r v0 v1).1 i = readRef s i) ∧
      s.length ≤ (binarizarM s r v0 v1).2 ∧
      readRef (binarizarM s r v0 v1).1 (binarizarM s r v0 v1).2 =
        binarizar_variables (readRef s r) v0 v1) ∧
    ((∀ i, i < s.length →
        readRef (transformacionM sq s r vars).1 i = readRef s i) ∧
      s.length ≤ (transformacionM sq s r vars).2 ∧
      readRef (transformacionM sq s r vars).1 (transformacionM sq s r vars).2 =
        transformacion_raiz_cuadrada sq (readRef s r) vars) ∧
    ((∀ i, i < s.length →
        readRef (ejecutarM modelo s r umbral).1 i = readRef s i) ∧
      s.length ≤ (ejecutarM modelo s r umbral).2 ∧
      readRef (ejecutarM modelo s r umbral).1 (ejecutarM modelo s r umbral).2 =
        ejecutar_modelo modelo (readRef s r) umbral) := by
  have hcopy : s.length < (s ++ [readRef s r]).length := by simp
  refine ⟨?_, ?_, ?_, ?_⟩
  · -- dummificarM
    have hS2 : s.length < (writeRef (s ++ [readRef s r]) s.length
        (setCol (readRef s r) columna
          ((getCol (readRef s r) columna).map (collapseCell cats)))).length := by
      rw [length_writeRef]
      exact hcopy
    obtain ⟨hl, hr, hf⟩ := foldl_writeRef
      (fun t cat => setCol t (columna ++ "_" ++ valName cat)
        (((getCol (readRef s r) columna).map (collapseCell cats)).map
          (fun v => if v = cat then Val.num 1 else Val.num 0)))
      s.length
      ((uniqueVals ((getCol (readRef s r) columna).map
        (collapseCell cats))).filter (fun c => c != Val.str referencia))
      (writeRef (s ++ [readRef s r]) s.length
        (setCol (readRef s r) columna
          ((getCol (readRef s r) columna).map (collapseCell cats))))
      hS2
    refine ⟨?_, ?_, ?_⟩
    · intro i hi
      simp only [dummificarM, readRef_append_self]
      rw [readRef_append_lt _ (by
        rw [hl, length_writeRef]
        simpa using Nat.lt_succ_of_lt hi)]
      rw [hf i (Nat.ne_of_lt hi), readRef_writeRef_ne _ _ (Nat.ne_of_lt hi),
        readRef_append_lt _ hi]
    · simp only [dummificarM, readRef_append_self]
      rw [hl, length_writeRef]
      simp
    · simp only [dummificarM, readRef_append_self]
      rw [hr, readRef_writeRef_self _ hcopy]
      rfl
  · -- binarizarM
    obtain ⟨hl0, hr0, hf0⟩ := foldl_writeRef (binStep 0) s.length v0
      (s ++ [readRef s r]) hcopy
    obtain ⟨hl1, hr1, hf1⟩ := foldl_writeRef (binStep 1) s.length v1
      (v0.foldl (fun st a => writeRef st s.length
        (binStep 0 (readRef st s.length) a)) (s ++ [readRef s r]))
      (by rw [hl0]; exact hcopy)
    refine ⟨?_, ?_, ?_⟩
    · intro i hi
      simp only [binarizarM]
      rw [hf1 i (Nat.ne_of_lt hi), hf0 i (Nat.ne_of_lt hi),
        readRef_append_lt _ hi]
    · simp only [binarizarM]
      exact Nat.le_refl _
    · simp only [binarizarM]
      rw [hr1, hr0, readRef_append_self]
      rfl
  · -- transformacionM
    obtain ⟨hl, hr, hf⟩ := foldl_writeRef
      (fun t c => setCol t c (sqrtCol sq (getCol t c))) s.length vars
      (s ++ [readRef s r]) hcopy
    refine ⟨?_, ?_, ?_⟩
    · intro i hi
      simp only [transformacionM]
      rw [hf i (Nat.ne_of_lt hi), readRef_append_lt _ hi]
    · simp only [transformacionM]
      exact Nat.le_refl _
    · simp only [transformacionM]
      rw [hr, readRef_append_self]
      rfl
  · -- ejecutarM
    cases hm : modelo (readRef s r) with
    | error e =>
      have hres : ejecutarM modelo s r umbral = (s ++ [readRef s r], s.length) := by
        simp only [ejecutarM, readRef_append_self, hm]
      have hpure : ejecutar_modelo modelo (readRef s r) umbral = readRef s r := by
        unfold ejecutar_modelo
        rw [hm]
      rw [hres, hpure]
      exact ⟨fun i hi => readRef_append_lt _ hi, Nat.le_refl _,
        readRef_append_self s _⟩
    | ok probs =>
      have hres : ejecutarM modelo s r umbral =
          (writeRef (writeRef (s ++ [readRef s r]) s.length
              (setCol (readRef s r) "PROB_FRAUDE" (probs.map Val.num)))
            s.length
            (setCol (readRef (writeRef (s ++ [readRef s r]) s.length
                (setCol (readRef s r) "PROB_FRAUDE" (probs.map Val.num)))
                s.length)
              "PRED_FRAUDE"
              ((getCol (readRef (writeRef (s ++ [readRef s r]) s.length
                  (setCol (readRef s r) "PROB_FRAUDE" (probs.map Val.num)))
                  s.length)
                "PROB_FRAUDE").map (predLabel umbral))),
            s.length) := by
        simp only [ejecutarM, readRef_append_self, hm]
      have hrd2 : readRef (writeRef (s ++ [readRef s r]) s.length
          (setCol (readRef s r) "PROB_FRAUDE" (probs.map Val.num)))
          s.length =
          setCol (readRef s r) "PROB_FRAUDE" (probs.map Val.num) :=
        readRef_writeRef_self _ hcopy
      have hpure : ejecutar_modelo modelo (readRef s r) umbral =
          setCol (setCol (readRef s r) "PROB_FRAUDE" (probs.map Val.num))
            "PRED_FRAUDE"
            ((getCol (setCol (readRef s r) "PROB_FRAUDE" (probs.map Val.num))
              "PROB_FRAUDE").map (predLabel umbral)) := by
        unfold ejecutar_modelo
        rw [hm]
      refine ⟨?_, ?_, ?_⟩
      · intro i hi
        rw [hres]
        show readRef _ i = readRef s i
        rw [readRef_writeRef_ne _ _ (Nat.ne_of_lt hi),
          readRef_writeRef_ne _ _ (Nat.ne_of_lt hi),
          readRef_append_lt _ hi]
      · rw [hres]
      · rw [hres, hpure]
        show readRef _ s.length = _
        rw [readRef_writeRef_self _ (by rw [length_writeRef]; exact hcopy),
          hrd2]

/-- C10 (witness): a one-object store; each of the four stage functions
leaves the caller's object at reference `0` untouched and returns a fresh
object holding the pure result. -/
theorem claim_C10_witness :
    readRef (dummificarM [[("x", [Val.str "a", Val.str "b"])]] 0
        "x" ["a"] "OTROS").1 0 =
      readRef [[("x", [Val.str "a", Val.str "b"])]] 0 ∧
    readRef (binarizarM [[("x", [Val.str "a", Val.str "b"])]] 0 ["x"] []).1
        (binarizarM [[("x", [Val.str "a", Val.str "b"])]] 0 ["x"] []).2 =
      binarizar_variables (readRef [[("x", [Val.str "a", Val.str "b"])]] 0)
        ["x"] [] ∧
    [[("x", [Val.str "a", Val.str "b"])]].length ≤
      (transformacionM (fun q => q) [[("x", [Val.str "a", Val.str "b"])]] 0
        ["y"]).2 ∧
    readRef (ejecutarM (fun _ => Except.error "fallo")
        [[("x", [Val.str "a", Val.str "b"])]] 0 2).1
        (ejecutarM (fun _ => Except.error "fallo")
          [[("x", [Val.str "a", Val.str "b"])]] 0 2).2 =
      ejecutar_modelo (fun _ => Except.error "fallo")
        (readRef [[("x", [Val.str "a", Val.str "b"])]] 0) 2 := by
  have h := claim_C10 [[("x", [Val.str "a", Val.str "b"])]] 0 "x" ["a"]
    "OTROS" ["x"] [] (fun q => q) ["y"] (fun _ => Except.error "fallo") 2
  exact ⟨h.1.1 0 (by decide), h.2.1.2.2, h.2.2.1.2.1, h.2.2.2.2.2⟩
